import Mathlib

/-!
Verification development for the KSEI shareholder-flow dashboard (src/app.py).

The source is a pandas program.  This file gives a shallow embedding of its
data-cleaning and aggregation core:

* dataframes become `List Record` (one `Record` per row, in row order);
* float64 columns become `ℚ` (every number the pipeline produces from CSV text
  is a decimal, hence exactly representable; sums/quotients are modelled
  exactly);
* `pd.to_numeric` in coercing error mode followed by `.fillna(0)` after `str.strip()` and
  `str.replace` of commas becomes `cleanNumber` (plain decimal notation;
  scientific notation is not modelled, no claim depends on the exact accepted
  language, only on the unparsable-goes-to-0 rule);
* every `sort_values` call in the source uses the pandas default unstable
  quicksort kind (numpy introsort, or a SIMD argsort depending on numpy
  version and CPU), so the source determines the result only up to
  permutation of equal-keyed rows; the order among ties is unspecified.
  This embedding stands in one admissible concrete order (a stable
  insertion sort ascending, reversed for descending) so that the
  definitions stay executable.  No theorem in this file depends on the
  stand-in tie order: every property proved about a sorted output
  (sums, totals, error branches) is invariant under permutation of the
  sorted list.
* `resample MS` buckets rows by calendar month and emits every month from the
  first to the last occupied one (gap months get empty buckets).
-/

set_option linter.unusedVariables false

namespace KSEI

/-- Residency half of an ownership category (the leading word of the column
names in `OWNERSHIP_COLS`, src/app.py lines 31-34). -/
inductive Residency
| Local
| Foreign
deriving DecidableEq, Repr, Fintype

/-- Investor-type half of an ownership category (the two-letter codes of the
column names in `OWNERSHIP_COLS`, src/app.py lines 31-34). -/
inductive InvType
| IS
| CP
| PF
| IB
| ID
| MF
| SC
| FD
| OT
deriving DecidableEq, Repr, Fintype

/-- One of the 18 fixed ownership categories (a column of `OWNERSHIP_COLS`). -/
structure Category where
  res : Residency
  typ : InvType
deriving DecidableEq, Repr, Fintype

/-- The canonical 18-category enumeration, in the exact order of the source
list `OWNERSHIP_COLS` (src/app.py lines 31-34): the 9 Local categories, then
the 9 Foreign ones, each in `IS CP PF IB ID MF SC FD OT` order. -/
def OWNERSHIP_COLS : List Category :=
  [⟨.Local, .IS⟩, ⟨.Local, .CP⟩, ⟨.Local, .PF⟩, ⟨.Local, .IB⟩, ⟨.Local, .ID⟩,
   ⟨.Local, .MF⟩, ⟨.Local, .SC⟩, ⟨.Local, .FD⟩, ⟨.Local, .OT⟩,
   ⟨.Foreign, .IS⟩, ⟨.Foreign, .CP⟩, ⟨.Foreign, .PF⟩, ⟨.Foreign, .IB⟩, ⟨.Foreign, .ID⟩,
   ⟨.Foreign, .MF⟩, ⟨.Foreign, .SC⟩, ⟨.Foreign, .FD⟩, ⟨.Foreign, .OT⟩]

/-- The change columns `OWNERSHIP_CHG_COLS` (src/app.py line 35) are in
bijection with the categories: column `c_chg` is identified with category `c`
(appending and later stripping the literal suffix `_chg` is pure string
bookkeeping in the source). -/
def OWNERSHIP_CHG_COLS : List Category := OWNERSHIP_COLS

/-- Position of an investor type inside the 9-element type order of
`OWNERSHIP_COLS`. -/
def InvType.idx : InvType → Nat
| .IS => 0
| .CP => 1
| .PF => 2
| .IB => 3
| .ID => 4
| .MF => 5
| .SC => 6
| .FD => 7
| .OT => 8

/-- Position of a residency inside `OWNERSHIP_COLS` (Local block first). -/
def Residency.idx : Residency → Nat
| .Local => 0
| .Foreign => 1

/-- Position of a category in the canonical enumeration `OWNERSHIP_COLS`. -/
def catIdx (c : Category) : Nat := c.res.idx * 9 + c.typ.idx

/-- A calendar date, as produced by `pd.to_datetime` on an ISO date string. -/
structure DateYMD where
  y : Nat
  m : Nat
  d : Nat
deriving DecidableEq, Repr, Inhabited

/-- Total order key on dates (chronological, since `m ≤ 12 < 13` and
`d ≤ 31 < 32` for every parsed date). -/
def DateYMD.rank (t : DateYMD) : Nat := (t.y * 13 + t.m) * 32 + t.d

/-- Month-start bucket key used by `resample MS`: months since year 0. -/
def DateYMD.monthRank (t : DateYMD) : Nat := t.y * 12 + (t.m - 1)

/-- Whitespace as stripped by `str.strip()` (the common ASCII cases). -/
def isWsChar (c : Char) : Bool := c == ' ' || c == '\t' || c == '\n' || c == '\r'

/-- Model of `str.strip()` on a character list. -/
def trimWs (cs : List Char) : List Char :=
  ((cs.dropWhile isWsChar).reverse.dropWhile isWsChar).reverse

/-- Model of `str.replace(",", "")` (src/app.py line 98): thousands-separator
removal. -/
def stripCommas (cs : List Char) : List Char := cs.filter (fun c => c != ',')

/-- All characters are decimal digits. -/
def allDigits (cs : List Char) : Bool := cs.all Char.isDigit

/-- Value of a digit string. -/
def digitsVal (cs : List Char) : Nat := cs.foldl (fun a c => a * 10 + (c.toNat - 48)) 0

/-- Model of `pd.to_numeric` (coercing error mode) on an already
stripped/comma-free string: an optional sign, then decimal digits with at most
one decimal point and at least one digit; anything else is unparsable
(`none`, i.e. NaN). -/
def parseDecimal (cs : List Char) : Option ℚ :=
  let signBody : ℚ × List Char :=
    match cs with
    | '-' :: rest => (-1, rest)
    | '+' :: rest => (1, rest)
    | _ => (1, cs)
  let intPart := signBody.2.takeWhile (fun c => c != '.')
  match signBody.2.dropWhile (fun c => c != '.') with
  | [] =>
    if allDigits intPart && !intPart.isEmpty then
      some (signBody.1 * (digitsVal intPart : ℚ))
    else none
  | _ :: frac =>
    if allDigits intPart && allDigits frac && !(intPart.isEmpty && frac.isEmpty) then
      some (signBody.1 * ((digitsVal intPart : ℚ) + (digitsVal frac : ℚ) / (10 : ℚ) ^ frac.length))
    else none

/-- The numeric-cleaning pipeline of src/app.py lines 97-98: `astype(str)`,
`str.strip()`, comma removal, coercing `pd.to_numeric` — `none` means
the value coerced to NaN. -/
def numParse (s : String) : Option ℚ := parseDecimal (stripCommas (trimWs s.data))

/-- src/app.py line 102: the cleaned value with NaN filled by 0
(`.fillna(0)`): an unparsable numeric field becomes 0. -/
def cleanNumber (s : String) : ℚ := (numParse s).getD 0

/-- Split a character list on a separator character. -/
def splitOnChar (sep : Char) : List Char → List (List Char)
| [] => [[]]
| c :: rest =>
  if c == sep then [] :: splitOnChar sep rest
  else
    match splitOnChar sep rest with
    | [] => [[c]]
    | g :: gs => (c :: g) :: gs

/-- Model of `pd.to_datetime` (coercing error mode) (src/app.py line 83),
restricted to ISO `YYYY-MM-DD` strings; anything else coerces to NaT
(`none`). -/
def parseDate (s : String) : Option DateYMD :=
  match splitOnChar '-' (trimWs s.data) with
  | [ys, ms, ds] =>
    if allDigits ys && !ys.isEmpty && allDigits ms && !ms.isEmpty
        && allDigits ds && !ds.isEmpty then
      if 1 ≤ digitsVal ms ∧ digitsVal ms ≤ 12 ∧ 1 ≤ digitsVal ds ∧ digitsVal ds ≤ 31 then
        some ⟨digitsVal ys, digitsVal ms, digitsVal ds⟩
      else none
    else none
  | _ => none

/-- One raw CSV row as handed to the cleaning code of `load_data`
(`pd.read_csv` with object dtype, src/app.py line 80).  Numeric-to-be
fields are still strings.  `Code` is `none` when the CSV cell is empty/null:
`read_csv` turns an empty cell into NaN (its default NaN values include the
empty string), which `dropna` later removes. -/
structure RawRow where
  Date : String
  Code : Option String
  Sector : String
  Price : String
  Price_Chg_Pct : String
  Free_Float : String
  Total_Local : String
  Total_Foreign : String
  Top_Buyer : String
  Top_Buyer_Vol : String
  Top_Seller : String
  Top_Seller_Vol : String
  Sec_Num : String
  holdings : Category → String
  holdings_chg : Category → String

/-- A normalized row of the dataset produced by `load_data`
(src/app.py lines 82-114), including the three derived change totals. -/
structure Record where
  Date : DateYMD
  Code : String
  Sector : String
  Price : ℚ
  Price_Chg_Pct : ℚ
  Free_Float : ℚ
  Total_Local : ℚ
  Total_Foreign : ℚ
  Top_Buyer : String
  Top_Buyer_Vol : ℚ
  Top_Seller : String
  Top_Seller_Vol : ℚ
  Sec_Num : ℚ
  holdings : Category → ℚ
  holdings_chg : Category → ℚ
  Total_Local_chg : ℚ
  Total_Foreign_chg : ℚ
  Total_chg : ℚ
deriving DecidableEq, Inhabited

/-- src/app.py line 109: the `_chg` columns whose name contains `Local` —
exactly the 9 Local categories. -/
def localChgCols : List Category := OWNERSHIP_CHG_COLS.filter (fun c => c.res == Residency.Local)

/-- src/app.py line 110: the `_chg` columns whose name contains `Foreign`. -/
def foreignChgCols : List Category :=
  OWNERSHIP_CHG_COLS.filter (fun c => c.res == Residency.Foreign)

/-- The per-row cleaning of `load_data` (src/app.py lines 82-114): date
parsing, sector trimming, numeric coercion with 0-fill, the
`dropna` on the Date and Code columns drop rule, and the three derived totals.
Returns `none` exactly when the row is dropped. -/
def normalizeRow (raw : RawRow) : Option Record :=
  match parseDate raw.Date, raw.Code with
  | some d, some code =>
    let hc : Category → ℚ := fun c => cleanNumber (raw.holdings_chg c)
    let tl : ℚ := (localChgCols.map hc).sum
    let tf : ℚ := (foreignChgCols.map hc).sum
    some
      { Date := d
        Code := code
        Sector := String.mk (trimWs raw.Sector.data)
        Price := cleanNumber raw.Price
        Price_Chg_Pct := cleanNumber raw.Price_Chg_Pct
        Free_Float := cleanNumber raw.Free_Float
        Total_Local := cleanNumber raw.Total_Local
        Total_Foreign := cleanNumber raw.Total_Foreign
        Top_Buyer := raw.Top_Buyer
        Top_Buyer_Vol := cleanNumber raw.Top_Buyer_Vol
        Top_Seller := raw.Top_Seller
        Top_Seller_Vol := cleanNumber raw.Top_Seller_Vol
        Sec_Num := cleanNumber raw.Sec_Num
        holdings := fun c => cleanNumber (raw.holdings c)
        holdings_chg := hc
        Total_Local_chg := tl
        Total_Foreign_chg := tf
        Total_chg := tl + tf }
  | _, _ => none

/-- The dataset-normalization core of `load_data` (src/app.py lines 80-117):
clean every row, dropping exactly the rows with unparsable/missing `Date` or
null `Code`.  (Fetching the CSV from the remote store and the surrounding
exception handling are I/O collaborators outside this core.) -/
def load_data (raws : List RawRow) : List Record := raws.filterMap normalizeRow

/-- Comparison of two rows by a key, the order used by `sort_values`. -/
def keyLe {α β : Type} [LinearOrder β] (key : α → β) (a b : α) : Prop := key a ≤ key b

instance {α β : Type} [LinearOrder β] (key : α → β) : DecidableRel (keyLe key) :=
  fun a b => inferInstanceAs (Decidable (key a ≤ key b))

instance {α β : Type} [LinearOrder β] (key : α → β) : IsTotal α (keyLe key) :=
  ⟨fun a b => le_total (key a) (key b)⟩

instance {α β : Type} [LinearOrder β] (key : α → β) : IsTrans α (keyLe key) :=
  ⟨fun a b c hab hbc => le_trans hab hbc⟩

/-- Stand-in for an ascending `sort_values` by a key.  The source uses the
pandas default unstable quicksort kind, which orders the rows by the key but
leaves the relative order of equal-keyed rows unspecified (it varies with
numpy version and CPU); this embedding picks a stable insertion sort as one
admissible such order.  Only permutation-invariant facts about the result are
proved in this file. -/
def sortAscBy {α β : Type} [LinearOrder β] (key : α → β) (l : List α) : List α :=
  List.insertionSort (keyLe key) l

/-- Stand-in for a descending `sort_values` by a key, with the same caveat as
`sortAscBy`: the source's default unstable quicksort determines the result
only up to permutation of equal-keyed rows, and only permutation-invariant
facts about the result are proved here. -/
def sortDescBy {α β : Type} [LinearOrder β] (key : α → β) (l : List α) : List α :=
  (sortAscBy key l).reverse

/-- The `net_flow` table of `calculate_macro_flow` (src/app.py lines 130-133):
per category, the sum of its `_chg` column over all rows, sorted descending by
the summed value.  (The `cum_flow` half of `calculate_macro_flow` is not
needed by any claim.) -/
def calculate_macro_flow_net (rows : List Record) : List (Category × ℚ) :=
  sortDescBy (fun p => p.2)
    (OWNERSHIP_CHG_COLS.map (fun c => (c, (rows.map (fun r => r.holdings_chg c)).sum)))

/-- The recoverable error result of the sector aggregations
(spec: `UnavailableDimension`; the source returns an explanatory message
string next to an empty frame). -/
inductive CalcError
| UnavailableDimension
deriving DecidableEq, Repr

/-- The distinct sectors, in ascending order — `groupby` sorts its keys. -/
def sortedSectors (rows : List Record) : List String :=
  List.insertionSort (fun a b : String => a ≤ b) (rows.map (fun r => r.Sector)).dedup

/-- `calculate_sector_rotation` (src/app.py lines 141-152): fails with the
sector-unavailable message when there are at most 1 distinct sector values
(`nunique() <= 1`); otherwise sums the chosen category's `_chg` column per
sector, sorted descending.  (In this embedding the `Sector` column and all 18
`_chg` columns always exist, so the two column-presence checks of the source
never fire.) -/
def calculate_sector_rotation (rows : List Record) (cat : Category) :
    Except CalcError (List (String × ℚ)) :=
  if (rows.map (fun r => r.Sector)).dedup.length ≤ 1 then
    Except.error CalcError.UnavailableDimension
  else
    Except.ok (sortDescBy (fun p => p.2)
      ((sortedSectors rows).map fun s =>
        (s, ((rows.filter (fun r => r.Sector == s)).map (fun r => r.holdings_chg cat)).sum)))

/-- Smallest element of `x :: l`. -/
def minList (x : Nat) (l : List Nat) : Nat := l.foldr Nat.min x

/-- Largest element of `x :: l`. -/
def maxList (x : Nat) (l : List Nat) : Nat := l.foldr Nat.max x

/-- The month buckets produced by `resample MS` on a set of rows: every
calendar month from the earliest occupied one to the latest, inclusive
(empty for no rows). -/
def monthKeys (rows : List Record) : List Nat :=
  match rows.map (fun r => r.Date.monthRank) with
  | [] => []
  | k :: ks =>
    (List.range (maxList k ks + 1 - minList k ks)).map (fun i => minList k ks + i)

/-- `resample MS` followed by a sum of `f` per month bucket, month index
ascending. -/
def resampleMonthlySum (rows : List Record) (f : Record → ℚ) : List (Nat × ℚ) :=
  (monthKeys rows).map fun mo =>
    (mo, ((rows.filter (fun r => r.Date.monthRank == mo)).map f).sum)

/-- `calculate_monthly_sector_flow` (src/app.py lines 154-162): the same
sector-availability guard, then per sector (ascending group keys) the monthly
resampled sums of `Total_chg`. -/
def calculate_monthly_sector_flow (rows : List Record) :
    Except CalcError (List (String × Nat × ℚ)) :=
  if (rows.map (fun r => r.Sector)).dedup.length ≤ 1 then
    Except.error CalcError.UnavailableDimension
  else
    Except.ok ((sortedSectors rows).flatMap fun s =>
      (resampleMonthlySum (rows.filter (fun r => r.Sector == s)) (fun r => r.Total_chg)).map
        fun p => (s, p.1, p.2))

/-- `get_stock_ownership_state` (src/app.py lines 164-181): select the rows of
one instrument; if none, the empty result (`none`); otherwise the latest row
is the last row of the date-ascending sort, and the state table lists the 18
holdings with their percentage of the 18-category total (0 if the total is not
positive), sorted descending by share count.  Note the source sorts with the
default unstable quicksort kind, so which row `iloc[-1]` picks among rows
tied on the maximal date is unspecified; the stable stand-in `sortAscBy`
fixes one admissible choice (the last-inserted tied row), and no theorem in
this file relies on that choice. -/
def get_stock_ownership_state (df : List Record) (code : String) :
    Option (List (Category × ℚ × ℚ) × Record) :=
  match (sortAscBy (fun r : Record => r.Date.rank) (df.filter (fun r => r.Code == code))).getLast? with
  | none => none
  | some latest =>
    let state := OWNERSHIP_COLS.map fun c => (c, latest.holdings c)
    let total := (state.map (fun p => p.2)).sum
    some
      (sortDescBy (fun t => t.2.1)
        (state.map fun p => (p.1, p.2, if 0 < total then p.2 / total * 100 else 0)),
       latest)

/-- `calculate_monthly_shareholder_change_table` (src/app.py lines 183-194):
empty in, empty out; otherwise the 18 `_chg` columns summed per resampled
month bucket, most recent month first (the descending `sort_index` of the ascending resample index is a reversal). -/
def calculate_monthly_shareholder_change_table (rows : List Record) :
    List (Nat × (Category → ℚ)) :=
  if rows.isEmpty then []
  else
    ((monthKeys rows).map fun mo =>
      (mo, fun c => ((rows.filter (fun r => r.Date.monthRank == mo)).map
        (fun r => r.holdings_chg c)).sum)).reverse

/-- `Total_Shares_Calc` (src/app.py line 205): the 18-category holdings total
of one row. -/
def totalSharesCalc (r : Record) : ℚ := (OWNERSHIP_COLS.map r.holdings).sum

/-- The per-row percentage of src/app.py line 210 (`np.where` on
`Total_Shares_Calc > 0`). -/
def pctOf (r : Record) (c : Category) : ℚ :=
  if 0 < totalSharesCalc r then r.holdings c / totalSharesCalc r * 100 else 0

/-- `calculate_historical_ownership_pct` (src/app.py lines 197-226): the
melted `(Date, category, percentage)` rows (one block per category, rows in
order, matching `melt`), keeping only the categories whose series-wide
percentage sum exceeds 0.01. -/
def calculate_historical_ownership_pct (rows : List Record) :
    List (DateYMD × Category × ℚ) :=
  if rows.isEmpty then []
  else
    (OWNERSHIP_COLS.flatMap fun c => rows.map fun r => (r.Date, c, pctOf r c)).filter
      fun t => decide ((1 / 100 : ℚ) < (rows.map fun r => pctOf r t.2.1).sum)

/-- The sidebar screener settings (src/app.py lines 295-320): empty lists and
a zero threshold impose no restriction. -/
structure ScreenerFilters where
  codes : List String
  topBuyers : List String
  topSellers : List String
  minRotationVol : ℚ
deriving DecidableEq, Repr

/-- The screener filter application (src/app.py lines 322-335): each non-empty
filter restricts the rows in turn; a positive minimum volume keeps rows whose
`Top_Buyer_Vol` reaches it or whose `abs(Top_Seller_Vol)` does. -/
def df_screener_filtered (rows : List Record) (f : ScreenerFilters) : List Record :=
  let s1 := if f.codes.isEmpty then rows else rows.filter (fun r => f.codes.contains r.Code)
  let s2 := if f.topBuyers.isEmpty then s1
            else s1.filter (fun r => f.topBuyers.contains r.Top_Buyer)
  let s3 := if f.topSellers.isEmpty then s2
            else s2.filter (fun r => f.topSellers.contains r.Top_Seller)
  if 0 < f.minRotationVol then
    s3.filter (fun r =>
      decide (f.minRotationVol ≤ r.Top_Buyer_Vol) || decide (f.minRotationVol ≤ |r.Top_Seller_Vol|))
  else s3

/-- The four screener conditions fused into one row predicate. -/
def screenPred (f : ScreenerFilters) (r : Record) : Bool :=
  (f.codes.isEmpty || f.codes.contains r.Code) &&
  (f.topBuyers.isEmpty || f.topBuyers.contains r.Top_Buyer) &&
  (f.topSellers.isEmpty || f.topSellers.contains r.Top_Seller) &&
  (!(decide (0 < f.minRotationVol)) ||
    (decide (f.minRotationVol ≤ r.Top_Buyer_Vol) || decide (f.minRotationVol ≤ |r.Top_Seller_Vol|)))

/-! ### Concrete test inputs, used by the witness and counterexample theorems -/

/-- A well-formed raw CSV row: parsable date, non-null code, all numerics
parsable. -/
def sampleRaw : RawRow :=
  { Date := "2024-03-05"
    Code := some "AAA"
    Sector := " Banks "
    Price := "1,250"
    Price_Chg_Pct := "-0.5"
    Free_Float := "40.5"
    Total_Local := "60"
    Total_Foreign := "40"
    Top_Buyer := "Local IS"
    Top_Buyer_Vol := "1000000"
    Top_Seller := "Foreign OT"
    Top_Seller_Vol := "-5"
    Sec_Num := "100"
    holdings := fun _ => "10"
    holdings_chg := fun _ => "2" }

/-- `sampleRaw` with an unparsable `Price` cell. -/
def sampleRawBadPrice : RawRow := { sampleRaw with Price := "n/a" }

/-- A normalized record with all-zero holdings/changes (sector `Others`). -/
def baseRec : Record :=
  { Date := ⟨2024, 1, 15⟩
    Code := "AAA"
    Sector := "Others"
    Price := 100
    Price_Chg_Pct := 0
    Free_Float := 0
    Total_Local := 0
    Total_Foreign := 0
    Top_Buyer := "Local IS"
    Top_Buyer_Vol := 0
    Top_Seller := "Foreign OT"
    Top_Seller_Vol := 0
    Sec_Num := 0
    holdings := fun _ => 0
    holdings_chg := fun _ => 0
    Total_Local_chg := 0
    Total_Foreign_chg := 0
    Total_chg := 0 }

/-- A record holding 1 share in `Local IS` (canonical position 0) and 9999
shares in `Local CP` (position 1), total 10000: the `Local IS` percentage is
0.01, within the `<= 0.01` series drop threshold, while `Local CP` holds
99.99 percent. -/
def tinyHolderRec : Record :=
  { baseRec with
    holdings := fun c =>
      if catIdx c = 0 then 1 else if catIdx c = 1 then 9999 else 0 }

/-! ### Shared helper lemmas -/

/-- The column selection of src/app.py line 109 picks exactly the 9 Local
change columns, in canonical order. -/
theorem localChgCols_eq :
    localChgCols = [⟨.Local, .IS⟩, ⟨.Local, .CP⟩, ⟨.Local, .PF⟩, ⟨.Local, .IB⟩,
      ⟨.Local, .ID⟩, ⟨.Local, .MF⟩, ⟨.Local, .SC⟩, ⟨.Local, .FD⟩, ⟨.Local, .OT⟩] := by
  decide

/-- The column selection of src/app.py line 110 picks exactly the 9 Foreign
change columns, in canonical order. -/
theorem foreignChgCols_eq :
    foreignChgCols = [⟨.Foreign, .IS⟩, ⟨.Foreign, .CP⟩, ⟨.Foreign, .PF⟩, ⟨.Foreign, .IB⟩,
      ⟨.Foreign, .ID⟩, ⟨.Foreign, .MF⟩, ⟨.Foreign, .SC⟩, ⟨.Foreign, .FD⟩, ⟨.Foreign, .OT⟩] := by
  decide

/-- Exchanging the two summations of a column-by-column total. -/
theorem sum_map_sum_comm {α β : Type} (cols : List α) (rows : List β) (g : β → α → ℚ) :
    (cols.map fun c => (rows.map fun r => g r c).sum).sum
      = (rows.map fun r => (cols.map fun c => g r c).sum).sum := by
  induction cols with
  | nil => simp
  | cons c cs ih => simp [List.sum_map_add, ih]

/-- Inverting `normalizeRow`: a kept record comes from a parsable date and a
non-null code, and every field is the cleaned raw field. -/
theorem normalizeRow_eq_some {raw : RawRow} {r : Record}
    (h : normalizeRow raw = some r) :
    ∃ d code, parseDate raw.Date = some d ∧ raw.Code = some code ∧
      r = { Date := d
            Code := code
            Sector := String.mk (trimWs raw.Sector.data)
            Price := cleanNumber raw.Price
            Price_Chg_Pct := cleanNumber raw.Price_Chg_Pct
            Free_Float := cleanNumber raw.Free_Float
            Total_Local := cleanNumber raw.Total_Local
            Total_Foreign := cleanNumber raw.Total_Foreign
            Top_Buyer := raw.Top_Buyer
            Top_Buyer_Vol := cleanNumber raw.Top_Buyer_Vol
            Top_Seller := raw.Top_Seller
            Top_Seller_Vol := cleanNumber raw.Top_Seller_Vol
            Sec_Num := cleanNumber raw.Sec_Num
            holdings := fun c => cleanNumber (raw.holdings c)
            holdings_chg := fun c => cleanNumber (raw.holdings_chg c)
            Total_Local_chg := (localChgCols.map fun c => cleanNumber (raw.holdings_chg c)).sum
            Total_Foreign_chg := (foreignChgCols.map fun c => cleanNumber (raw.holdings_chg c)).sum
            Total_chg := (localChgCols.map fun c => cleanNumber (raw.holdings_chg c)).sum
              + (foreignChgCols.map fun c => cleanNumber (raw.holdings_chg c)).sum } := by
  cases hpd : parseDate raw.Date with
  | none => rw [normalizeRow, hpd] at h; cases raw.Code <;> simp at h
  | some d =>
    cases hcd : raw.Code with
    | none => rw [normalizeRow, hpd, hcd] at h; simp at h
    | some code =>
      rw [normalizeRow, hpd, hcd] at h
      simp only [Option.some.injEq] at h
      exact ⟨d, code, rfl, rfl, h.symm⟩

/-! ### Claim C1 -/

/-- Claim C1: every record of the normalized dataset produced by `load_data`
satisfies `Total_chg = Total_Local_chg + Total_Foreign_chg`, with
`Total_Local_chg` the sum of exactly the 9 Local change fields and
`Total_Foreign_chg` the sum of exactly the 9 Foreign change fields. -/
theorem C1_sum_invariant (raws : List RawRow) (r : Record)
    (hr : r ∈ load_data raws) :
    r.Total_chg = r.Total_Local_chg + r.Total_Foreign_chg ∧
    r.Total_Local_chg =
      r.holdings_chg ⟨.Local, .IS⟩ + r.holdings_chg ⟨.Local, .CP⟩ +
      r.holdings_chg ⟨.Local, .PF⟩ + r.holdings_chg ⟨.Local, .IB⟩ +
      r.holdings_chg ⟨.Local, .ID⟩ + r.holdings_chg ⟨.Local, .MF⟩ +
      r.holdings_chg ⟨.Local, .SC⟩ + r.holdings_chg ⟨.Local, .FD⟩ +
      r.holdings_chg ⟨.Local, .OT⟩ ∧
    r.Total_Foreign_chg =
      r.holdings_chg ⟨.Foreign, .IS⟩ + r.holdings_chg ⟨.Foreign, .CP⟩ +
      r.holdings_chg ⟨.Foreign, .PF⟩ + r.holdings_chg ⟨.Foreign, .IB⟩ +
      r.holdings_chg ⟨.Foreign, .ID⟩ + r.holdings_chg ⟨.Foreign, .MF⟩ +
      r.holdings_chg ⟨.Foreign, .SC⟩ + r.holdings_chg ⟨.Foreign, .FD⟩ +
      r.holdings_chg ⟨.Foreign, .OT⟩ := by
  obtain ⟨raw, -, hnorm⟩ := List.mem_filterMap.mp hr
  obtain ⟨d, code, -, -, rfl⟩ := normalizeRow_eq_some hnorm
  refine ⟨rfl, ?_, ?_⟩
  · rw [localChgCols_eq]
    simp [List.sum_cons]
    ring
  · rw [foreignChgCols_eq]
    simp [List.sum_cons]
    ring

/-- Witness for C1 at the concrete input `sampleRaw`. -/
theorem C1_sum_invariant_witness :
    (load_data [sampleRaw]).headI.Total_chg
        = (load_data [sampleRaw]).headI.Total_Local_chg
          + (load_data [sampleRaw]).headI.Total_Foreign_chg ∧
    (load_data [sampleRaw]).headI.Total_Local_chg =
      (load_data [sampleRaw]).headI.holdings_chg ⟨.Local, .IS⟩
        + (load_data [sampleRaw]).headI.holdings_chg ⟨.Local, .CP⟩
        + (load_data [sampleRaw]).headI.holdings_chg ⟨.Local, .PF⟩
        + (load_data [sampleRaw]).headI.holdings_chg ⟨.Local, .IB⟩
        + (load_data [sampleRaw]).headI.holdings_chg ⟨.Local, .ID⟩
        + (load_data [sampleRaw]).headI.holdings_chg ⟨.Local, .MF⟩
        + (load_data [sampleRaw]).headI.holdings_chg ⟨.Local, .SC⟩
        + (load_data [sampleRaw]).headI.holdings_chg ⟨.Local, .FD⟩
        + (load_data [sampleRaw]).headI.holdings_chg ⟨.Local, .OT⟩ ∧
    (load_data [sampleRaw]).headI.Total_Foreign_chg =
      (load_data [sampleRaw]).headI.holdings_chg ⟨.Foreign, .IS⟩
        + (load_data [sampleRaw]).headI.holdings_chg ⟨.Foreign, .CP⟩
        + (load_data [sampleRaw]).headI.holdings_chg ⟨.Foreign, .PF⟩
        + (load_data [sampleRaw]).headI.holdings_chg ⟨.Foreign, .IB⟩
        + (load_data [sampleRaw]).headI.holdings_chg ⟨.Foreign, .ID⟩
        + (load_data [sampleRaw]).headI.holdings_chg ⟨.Foreign, .MF⟩
        + (load_data [sampleRaw]).headI.holdings_chg ⟨.Foreign, .SC⟩
        + (load_data [sampleRaw]).headI.holdings_chg ⟨.Foreign, .FD⟩
        + (load_data [sampleRaw]).headI.holdings_chg ⟨.Foreign, .OT⟩ :=
  C1_sum_invariant [sampleRaw] (load_data [sampleRaw]).headI (List.mem_cons_self _ _)

/-- Every normalized record satisfies the hypothesis of the C2 theorem: its
`Total_chg` is the sum of all 18 change fields (the 9 Local ones plus the 9
Foreign ones). -/
theorem load_data_chg_invariant (raws : List RawRow) (r : Record)
    (hr : r ∈ load_data raws) :
    r.Total_chg = (OWNERSHIP_CHG_COLS.map r.holdings_chg).sum := by
  obtain ⟨raw, -, hnorm⟩ := List.mem_filterMap.mp hr
  obtain ⟨d, code, -, -, rfl⟩ := normalizeRow_eq_some hnorm
  show (localChgCols.map _).sum + (foreignChgCols.map _).sum = _
  rw [localChgCols_eq, foreignChgCols_eq]
  show _ = (OWNERSHIP_COLS.map _).sum
  rw [OWNERSHIP_COLS]
  simp [List.sum_cons]
  ring

/-! ### Claim C2 -/

/-- Claim C2: for every row set whose records carry the derived-total
invariant (as every `load_data` record does, C1), the summed values of the
`net_flow` table of `calculate_macro_flow` equal the sum of `Total_chg` over
the rows: every category is accounted for exactly once. -/
theorem C2_net_flow_total_invariant (rows : List Record)
    (hinv : ∀ r ∈ rows, r.Total_chg = (OWNERSHIP_CHG_COLS.map r.holdings_chg).sum) :
    ((calculate_macro_flow_net rows).map (fun p => p.2)).sum
      = (rows.map (fun r => r.Total_chg)).sum := by
  have hperm : List.Perm (calculate_macro_flow_net rows)
      (OWNERSHIP_CHG_COLS.map (fun c => (c, (rows.map (fun r => r.holdings_chg c)).sum))) := by
    unfold calculate_macro_flow_net sortDescBy sortAscBy
    exact (List.reverse_perm _).trans (List.perm_insertionSort _ _)
  calc ((calculate_macro_flow_net rows).map (fun p => p.2)).sum
      = ((OWNERSHIP_CHG_COLS.map
            (fun c => (c, (rows.map (fun r => r.holdings_chg c)).sum))).map
          (fun p => p.2)).sum := (hperm.map _).sum_eq
    _ = (OWNERSHIP_CHG_COLS.map (fun c => (rows.map (fun r => r.holdings_chg c)).sum)).sum := by
        rw [List.map_map]
        rfl
    _ = (rows.map fun r => (OWNERSHIP_CHG_COLS.map (fun c => r.holdings_chg c)).sum).sum :=
        sum_map_sum_comm _ _ _
    _ = (rows.map (fun r => r.Total_chg)).sum :=
        congrArg List.sum (List.map_congr_left fun r hmem => (hinv r hmem).symm)

/-- Witness for C2 at the concrete input `[baseRec]`. -/
theorem C2_net_flow_total_invariant_witness :
    ((calculate_macro_flow_net [baseRec]).map (fun p => p.2)).sum
      = ([baseRec].map (fun r => r.Total_chg)).sum :=
  C2_net_flow_total_invariant [baseRec] (by
    intro r hr
    rw [List.mem_singleton] at hr
    subst hr
    simp [baseRec, OWNERSHIP_CHG_COLS, OWNERSHIP_COLS])

/-! ### Claims C6 and C9: the sector-availability guard -/

/-- A list all of whose elements are equal has at most one distinct value. -/
theorem dedup_length_le_one_of_const {α : Type} [DecidableEq α] {l : List α} {x : α}
    (h : ∀ y ∈ l, y = x) : l.dedup.length ≤ 1 := by
  induction l with
  | nil => simp
  | cons a t ih =>
    have ht : ∀ y ∈ t, y = x := fun y hy => h y (List.mem_cons_of_mem _ hy)
    by_cases hmem : a ∈ t
    · rw [List.dedup_cons_of_mem hmem]
      exact ih ht
    · rw [List.dedup_cons_of_not_mem hmem]
      cases t with
      | nil => simp
      | cons b u =>
        exfalso
        apply hmem
        rw [h a (List.mem_cons_self _ _), ← ht b (List.mem_cons_self _ _)]
        exact List.mem_cons_self _ _

/-- Claim C6: on every non-empty dataset whose records all carry sector
`Others`, both `calculate_sector_rotation` (for any category) and
`calculate_monthly_sector_flow` return the `UnavailableDimension` error
instead of an aggregate table. -/
theorem C6_sector_absence (rows : List Record) (cat : Category)
    (hne : rows ≠ []) (hsec : ∀ r ∈ rows, r.Sector = "Others") :
    calculate_sector_rotation rows cat = Except.error CalcError.UnavailableDimension ∧
    calculate_monthly_sector_flow rows = Except.error CalcError.UnavailableDimension := by
  have hconst : ∀ y ∈ rows.map (fun r => r.Sector), y = "Others" := by
    intro y hy
    obtain ⟨r, hr, rfl⟩ := List.mem_map.mp hy
    exact hsec r hr
  have hlen : (rows.map (fun r => r.Sector)).dedup.length ≤ 1 :=
    dedup_length_le_one_of_const hconst
  constructor
  · rw [calculate_sector_rotation, if_pos hlen]
  · rw [calculate_monthly_sector_flow, if_pos hlen]

/-- Witness for C6 at the concrete input `[baseRec]` (sector `Others`). -/
theorem C6_sector_absence_witness :
    calculate_sector_rotation [baseRec] ⟨.Local, .IS⟩
        = Except.error CalcError.UnavailableDimension ∧
    calculate_monthly_sector_flow [baseRec]
        = Except.error CalcError.UnavailableDimension :=
  C6_sector_absence [baseRec] ⟨.Local, .IS⟩ (by simp)
    (by
      intro r hr
      rw [List.mem_singleton] at hr
      subst hr
      rfl)

/-- Claim C9: on the empty row set both sector aggregations return the
`UnavailableDimension` error (0 distinct sectors is at most 1), not an empty
table. -/
theorem C9_empty_input_unavailable (cat : Category) :
    calculate_sector_rotation [] cat = Except.error CalcError.UnavailableDimension ∧
    calculate_monthly_sector_flow [] = Except.error CalcError.UnavailableDimension := by
  exact ⟨rfl, rfl⟩

/-! ### Claim C8: the drop rule of normalization -/

/-- Claim C8: a row survives normalization exactly when its `Date` parses and
its `Code` is non-null, and on a surviving record every designated numeric
field whose raw text fails to parse is 0 — numeric failures never drop a
row. -/
theorem C8_drop_rule (raw : RawRow) :
    ((normalizeRow raw).isSome ↔ ((parseDate raw.Date).isSome ∧ raw.Code ≠ none)) ∧
    (∀ rec, normalizeRow raw = some rec →
      (numParse raw.Price = none → rec.Price = 0) ∧
      (numParse raw.Price_Chg_Pct = none → rec.Price_Chg_Pct = 0) ∧
      (numParse raw.Free_Float = none → rec.Free_Float = 0) ∧
      (numParse raw.Total_Local = none → rec.Total_Local = 0) ∧
      (numParse raw.Total_Foreign = none → rec.Total_Foreign = 0) ∧
      (numParse raw.Top_Buyer_Vol = none → rec.Top_Buyer_Vol = 0) ∧
      (numParse raw.Top_Seller_Vol = none → rec.Top_Seller_Vol = 0) ∧
      (numParse raw.Sec_Num = none → rec.Sec_Num = 0) ∧
      (∀ c, numParse (raw.holdings c) = none → rec.holdings c = 0) ∧
      (∀ c, numParse (raw.holdings_chg c) = none → rec.holdings_chg c = 0)) := by
  constructor
  · cases hpd : parseDate raw.Date <;> cases hcd : raw.Code <;>
      simp [normalizeRow, hpd, hcd]
  · intro rec hrec
    obtain ⟨d, code, hpd, hcd, rfl⟩ := normalizeRow_eq_some hrec
    refine ⟨?_, ?_, ?_, ?_, ?_, ?_, ?_, ?_, ?_, ?_⟩ <;>
      first
      | (intro h; simp [cleanNumber, h])
      | (intro c h; simp [cleanNumber, h])

/-- Witness for C8 at the concrete input `sampleRawBadPrice` (whose `Price`
cell does not parse). -/
theorem C8_drop_rule_witness :
    ((normalizeRow sampleRawBadPrice).isSome
        ↔ ((parseDate sampleRawBadPrice.Date).isSome ∧ sampleRawBadPrice.Code ≠ none)) ∧
    (∀ rec, normalizeRow sampleRawBadPrice = some rec →
      (numParse sampleRawBadPrice.Price = none → rec.Price = 0) ∧
      (numParse sampleRawBadPrice.Price_Chg_Pct = none → rec.Price_Chg_Pct = 0) ∧
      (numParse sampleRawBadPrice.Free_Float = none → rec.Free_Float = 0) ∧
      (numParse sampleRawBadPrice.Total_Local = none → rec.Total_Local = 0) ∧
      (numParse sampleRawBadPrice.Total_Foreign = none → rec.Total_Foreign = 0) ∧
      (numParse sampleRawBadPrice.Top_Buyer_Vol = none → rec.Top_Buyer_Vol = 0) ∧
      (numParse sampleRawBadPrice.Top_Seller_Vol = none → rec.Top_Seller_Vol = 0) ∧
      (numParse sampleRawBadPrice.Sec_Num = none → rec.Sec_Num = 0) ∧
      (∀ c, numParse (sampleRawBadPrice.holdings c) = none → rec.holdings c = 0) ∧
      (∀ c, numParse (sampleRawBadPrice.holdings_chg c) = none → rec.holdings_chg c = 0)) :=
  C8_drop_rule sampleRawBadPrice

/-! ### Claim C10: the monthly change table conserves category totals -/

/-- Adding up an indicator over a duplicate-free list containing the hit. -/
theorem sum_map_ite_eq {κ : Type} [DecidableEq κ] (ms : List κ) (hnd : ms.Nodup)
    (x : κ) (hx : x ∈ ms) (v : ℚ) :
    (ms.map fun mo => if x = mo then v else 0).sum = v := by
  induction ms with
  | nil => cases hx
  | cons a t ih =>
    rw [List.map_cons, List.sum_cons]
    rcases List.mem_cons.mp hx with rfl | hxt
    · rw [if_pos rfl]
      have hz : (t.map fun mo => if x = mo then v else 0) = t.map fun mo => (0 : ℚ) := by
        apply List.map_congr_left
        intro mo hmo
        rw [if_neg]
        intro hcontra
        exact (List.nodup_cons.mp hnd).1 (hcontra ▸ hmo)
      rw [hz]
      simp
    · rw [if_neg, zero_add]
      · exact ih (List.nodup_cons.mp hnd).2 hxt
      · intro hcontra
        exact (List.nodup_cons.mp hnd).1 (hcontra ▸ hxt)

/-- Summing a quantity bucket-by-bucket over a duplicate-free key list that
covers every row gives the plain row sum: the buckets partition the rows. -/
theorem sum_over_partition {α κ : Type} [DecidableEq κ] (ms : List κ) (hnd : ms.Nodup)
    (rows : List α) (key : α → κ) (f : α → ℚ)
    (hmem : ∀ r ∈ rows, key r ∈ ms) :
    (ms.map fun mo => ((rows.filter (fun r => key r == mo)).map f).sum).sum
      = (rows.map f).sum := by
  induction rows with
  | nil => simp
  | cons r rs ih =>
    have hsplit : ∀ mo : κ, ((List.filter (fun x => key x == mo) (r :: rs)).map f).sum
        = (if key r = mo then f r else 0)
          + ((List.filter (fun x => key x == mo) rs).map f).sum := by
      intro mo
      by_cases h : key r = mo
      · simp [List.filter_cons, h]
      · simp [List.filter_cons, h]
    calc (ms.map fun mo => ((List.filter (fun x => key x == mo) (r :: rs)).map f).sum).sum
        = (ms.map fun mo => (if key r = mo then f r else 0)
            + ((List.filter (fun x => key x == mo) rs).map f).sum).sum :=
          congrArg List.sum (List.map_congr_left fun mo _ => hsplit mo)
      _ = (ms.map fun mo => (if key r = mo then f r else 0)).sum
          + (ms.map fun mo => ((List.filter (fun x => key x == mo) rs).map f).sum).sum := by
          rw [List.sum_map_add]
      _ = f r + (rs.map f).sum := by
          rw [sum_map_ite_eq ms hnd (key r) (hmem r (List.mem_cons_self _ _)) (f r),
            ih (fun x hx => hmem x (List.mem_cons_of_mem _ hx))]
      _ = ((r :: rs).map f).sum := by simp

/-- `minList` is a lower bound of `x :: l`. -/
theorem minList_le {x : Nat} {l : List Nat} : ∀ y ∈ x :: l, minList x l ≤ y := by
  induction l with
  | nil =>
    intro y hy
    rw [List.mem_singleton] at hy
    subst hy
    exact le_refl _
  | cons a t ih =>
    intro y hy
    have hbase : minList x (a :: t) = Nat.min a (minList x t) := rfl
    rcases List.mem_cons.mp hy with rfl | hy2
    · rw [hbase]
      exact le_trans (Nat.min_le_right _ _) (ih y (List.mem_cons_self _ _))
    · rcases List.mem_cons.mp hy2 with rfl | hy3
      · rw [hbase]
        exact Nat.min_le_left _ _
      · rw [hbase]
        exact le_trans (Nat.min_le_right _ _) (ih y (List.mem_cons_of_mem _ hy3))

/-- `maxList` is an upper bound of `x :: l`. -/
theorem le_maxList {x : Nat} {l : List Nat} : ∀ y ∈ x :: l, y ≤ maxList x l := by
  induction l with
  | nil =>
    intro y hy
    rw [List.mem_singleton] at hy
    subst hy
    exact le_refl _
  | cons a t ih =>
    intro y hy
    have hbase : maxList x (a :: t) = Nat.max a (maxList x t) := rfl
    rcases List.mem_cons.mp hy with rfl | hy2
    · rw [hbase]
      exact le_trans (ih y (List.mem_cons_self _ _)) (Nat.le_max_right _ _)
    · rcases List.mem_cons.mp hy2 with rfl | hy3
      · rw [hbase]
        exact Nat.le_max_left _ _
      · rw [hbase]
        exact le_trans (ih y (List.mem_cons_of_mem _ hy3)) (Nat.le_max_right _ _)

/-- The resample month range has no duplicate months. -/
theorem monthKeys_nodup (rows : List Record) : (monthKeys rows).Nodup := by
  rw [monthKeys]
  cases hmap : rows.map (fun r => r.Date.monthRank) with
  | nil => exact List.nodup_nil
  | cons k ks =>
    exact (List.nodup_range _).map (fun a b h => by omega)

/-- Every row's month lies in the resample month range. -/
theorem mem_monthKeys (rows : List Record) (r : Record) (hr : r ∈ rows) :
    r.Date.monthRank ∈ monthKeys rows := by
  rw [monthKeys]
  cases rows with
  | nil => cases hr
  | cons s rs =>
    rw [List.map_cons]
    have hk : r.Date.monthRank ∈ s.Date.monthRank :: rs.map (fun x => x.Date.monthRank) := by
      rcases List.mem_cons.mp hr with rfl | hr2
      · exact List.mem_cons_self _ _
      · exact List.mem_cons_of_mem _ (List.mem_map_of_mem _ hr2)
    have hlo := minList_le r.Date.monthRank hk
    have hhi := le_maxList r.Date.monthRank hk
    rw [List.mem_map]
    refine ⟨r.Date.monthRank - minList s.Date.monthRank (rs.map fun x => x.Date.monthRank), ?_, ?_⟩
    · rw [List.mem_range]
      omega
    · omega

/-! ### Claim C3: the percentage invariant of the historical ownership series -/

/-- Claim C3 (amended): the per-date percentage vector computed by
`calculate_historical_ownership_pct` (before its series-wide 0.01 drop
filter) sums to exactly 100 over the 18 categories whenever the date's total
holdings is positive, and is identically 0 whenever the total is zero or
negative. -/
theorem C3_pct_amended (r : Record) :
    (0 < totalSharesCalc r → (OWNERSHIP_COLS.map (pctOf r)).sum = 100) ∧
    (totalSharesCalc r ≤ 0 → ∀ c, pctOf r c = 0) := by
  constructor
  · intro hpos
    have hne : totalSharesCalc r ≠ 0 := ne_of_gt hpos
    have hmap : OWNERSHIP_COLS.map (pctOf r)
        = OWNERSHIP_COLS.map (fun c => r.holdings c * (100 / totalSharesCalc r)) := by
      apply List.map_congr_left
      intro c _
      rw [pctOf, if_pos hpos, div_mul_eq_mul_div, mul_div_assoc]
    rw [hmap, List.sum_map_mul_right]
    have hsum : (OWNERSHIP_COLS.map fun c => r.holdings c).sum = totalSharesCalc r := rfl
    rw [hsum]
    field_simp
  · intro hle c
    rw [pctOf, if_neg (not_lt.mpr hle)]

/-- Witness for the amended C3 at `tinyHolderRec` (positive total 10000). -/
theorem C3_pct_amended_witness :
    0 < totalSharesCalc tinyHolderRec ∧
    (OWNERSHIP_COLS.map (pctOf tinyHolderRec)).sum = 100 :=
  ⟨by norm_num [totalSharesCalc, tinyHolderRec, baseRec, OWNERSHIP_COLS, catIdx, Residency.idx, InvType.idx],
   (C3_pct_amended tinyHolderRec).1
     (by norm_num [totalSharesCalc, tinyHolderRec, baseRec, OWNERSHIP_COLS, catIdx, Residency.idx, InvType.idx])⟩

/-- Counterexample to C3 as stated: `tinyHolderRec` has nonzero (positive)
total holdings, yet the per-date percentage sum of the function's actual
output misses 100 by 0.01 — the `Local IS` percentage (0.01, whose
series-wide sum does not exceed the 0.01 threshold) is dropped from the
output — which is far outside the 1e-6 tolerance. -/
theorem C3_pct_sum_counterexample :
    totalSharesCalc tinyHolderRec ≠ 0 ∧
    ¬ (|(((calculate_historical_ownership_pct [tinyHolderRec]).filter
            (fun t => t.1 = tinyHolderRec.Date)).map (fun t => t.2.2)).sum - 100|
          ≤ (1 / 1000000 : ℚ)) := by
  have htot : totalSharesCalc tinyHolderRec = 10000 := by
    norm_num [totalSharesCalc, tinyHolderRec, baseRec, OWNERSHIP_COLS, catIdx,
      Residency.idx, InvType.idx]
  have hpct : ∀ c : Category, pctOf tinyHolderRec c
      = (if catIdx c = 0 then 1 else if catIdx c = 1 then 9999 else 0) / 100 := by
    intro c
    rw [pctOf, htot, if_pos (by norm_num)]
    have hh : tinyHolderRec.holdings c
        = (if catIdx c = 0 then (1 : ℚ) else if catIdx c = 1 then 9999 else 0) := rfl
    rw [hh]
    by_cases h0 : catIdx c = 0
    · rw [if_pos h0]
      norm_num
    · rw [if_neg h0]
      by_cases h1 : catIdx c = 1
      · rw [if_pos h1]
        norm_num
      · rw [if_neg h1]
        norm_num
  have hout : calculate_historical_ownership_pct [tinyHolderRec]
      = [(tinyHolderRec.Date, (⟨.Local, .CP⟩ : Category), 9999 / 100)] := by
    rw [calculate_historical_ownership_pct]
    norm_num [OWNERSHIP_COLS, hpct, catIdx, Residency.idx, InvType.idx,
      List.flatMap_cons, List.flatMap_nil, List.filter_cons]
  constructor
  · rw [htot]
    norm_num
  · rw [hout]
    norm_num [abs_le, List.filter_cons]

/-! ### Claim C7: the screener filter -/

/-- The sequential filter stages of the screener equal one pass with the
fused predicate. -/
theorem df_screener_filtered_eq_filter (rows : List Record) (f : ScreenerFilters) :
    df_screener_filtered rows f = rows.filter (screenPred f) := by
  unfold df_screener_filtered screenPred
  by_cases h1 : f.codes.isEmpty <;> by_cases h2 : f.topBuyers.isEmpty <;>
    by_cases h3 : f.topSellers.isEmpty <;> by_cases h4 : 0 < f.minRotationVol <;>
      simp [h1, h2, h3, h4, List.filter_filter, Bool.and_assoc, Bool.and_comm,
        Bool.and_left_comm]

/-- Filtering with a stronger predicate never keeps more rows. -/
theorem length_filter_le_of_imp {α : Type} (l : List α) (p q : α → Bool)
    (h : ∀ a, q a = true → p a = true) :
    (l.filter q).length ≤ (l.filter p).length := by
  induction l with
  | nil => exact le_refl _
  | cons a t ih =>
    by_cases hq : q a = true
    · rw [List.filter_cons, if_pos hq, List.filter_cons, if_pos (h a hq)]
      simpa using ih
    · rw [List.filter_cons, if_neg hq]
      by_cases hp : p a = true
      · rw [List.filter_cons, if_pos hp]
        exact le_trans ih (Nat.le_succ _)
      · rw [List.filter_cons, if_neg hp]
        exact ih

/-- The all-empty filter settings accept every row. -/
theorem screenPred_trivial (r : Record) : screenPred ⟨[], [], [], 0⟩ r = true := by
  rw [screenPred]
  norm_num

/-- Claim C7: the screener with all filters empty returns exactly the input
rows, and whenever one filter setting is at least as constraining as another
(its fused row predicate implies the other's), it keeps at most as many
rows. -/
theorem C7_screener_identity_and_monotonicity (rows : List Record) (f g : ScreenerFilters)
    (himp : ∀ r : Record, screenPred g r = true → screenPred f r = true) :
    df_screener_filtered rows ⟨[], [], [], 0⟩ = rows ∧
    (df_screener_filtered rows g).length ≤ (df_screener_filtered rows f).length := by
  constructor
  · rfl
  · rw [df_screener_filtered_eq_filter, df_screener_filtered_eq_filter]
    exact length_filter_le_of_imp rows (screenPred f) (screenPred g) himp

/-- Witness for C7: empty settings against a code-restricted setting on a
one-row dataset. -/
theorem C7_screener_witness :
    df_screener_filtered [baseRec] ⟨[], [], [], 0⟩ = [baseRec] ∧
    (df_screener_filtered [baseRec] ⟨["BBB"], [], [], 0⟩).length
      ≤ (df_screener_filtered [baseRec] ⟨[], [], [], 0⟩).length :=
  C7_screener_identity_and_monotonicity [baseRec] ⟨[], [], [], 0⟩ ⟨["BBB"], [], [], 0⟩
    (fun r hr => screenPred_trivial r)

/-- Claim C10: for every per-instrument row set and every category, the sum of
that category's values over all month buckets of
`calculate_monthly_shareholder_change_table` equals the sum of the category's
change values over the input rows: the month buckets partition the rows. -/
theorem C10_monthly_table_conserves_totals (rows : List Record) (c : Category) :
    ((calculate_monthly_shareholder_change_table rows).map (fun p => p.2 c)).sum
      = (rows.map (fun r => r.holdings_chg c)).sum := by
  by_cases hempty : rows.isEmpty
  · rw [calculate_monthly_shareholder_change_table, if_pos hempty]
    rw [List.isEmpty_iff.mp hempty]
    simp
  · rw [calculate_monthly_shareholder_change_table, if_neg hempty]
    rw [List.map_reverse, List.sum_reverse, List.map_map]
    have hfun : ((fun p : Nat × (Category → ℚ) => p.2 c) ∘
        (fun mo => (mo, fun cat =>
          ((rows.filter (fun r => r.Date.monthRank == mo)).map
            (fun r => r.holdings_chg cat)).sum)))
        = fun mo => ((rows.filter (fun r => r.Date.monthRank == mo)).map
            (fun r => r.holdings_chg c)).sum := rfl
    rw [hfun]
    exact sum_over_partition (monthKeys rows) (monthKeys_nodup rows) rows
      (fun r => r.Date.monthRank) (fun r => r.holdings_chg c)
      (fun r hr => mem_monthKeys rows r hr)

end KSEI
